import Mathlib

set_option linter.dupNamespace false

/-!
Shallow embedding of the GraphQL query-construction core of the
`graphql` Go package (files `query.go` and the unnamed client file).
The compiler walks a `reflect.Type` of the response data shape and a
variables map, and produces a minified GraphQL operation document.

The helper functions `queryArguments`, `writeArgumentType`, `query`
and `writeQuery` are textually identical in `query.go` and in the
unnamed source file; they are embedded once and shared by the two
operation-assembly embeddings.
-/

/-- The fragment of `reflect.Type` that the compiler inspects:
`Kind()` (pointer, slice, array, struct, or any other named kind),
`Elem()` for pointers/slices/arrays, `Name()` for the default branch
of `writeArgumentType`, `NumField`/`Field` for structs, and whether
`*T` implements `encoding/json.Unmarshaler`.  A struct field carries
its identifier, the optional `graphql:"..."` tag (via `Tag.Lookup`),
its `Anonymous` flag, and its type. -/
inductive TypeDesc where
  | named (name : String)
  | ptr (elem : TypeDesc)
  | slice (elem : TypeDesc)
  | array (elem : TypeDesc)
  | record (name : String) (unmarshaler : Bool)
      (fields : List (String × Option String × Bool × TypeDesc))

/-- A struct field: identifier, `graphql` tag (if present), `Anonymous`
flag, declared type. -/
abbrev StructField := String × Option String × Bool × TypeDesc

/-- Go string `<` : bytewise lexicographic comparison.  On the code
points of valid strings this coincides with UTF-8 byte order, which is
what `sort.Strings` uses. -/
def strLtChars : List Char → List Char → Bool
  | [], [] => false
  | [], _ :: _ => true
  | _ :: _, [] => false
  | a :: as, b :: bs => a.toNat < b.toNat || (a.toNat == b.toNat && strLtChars as bs)

/-- Go string `<` on `String`. -/
def strLt (a b : String) : Bool := strLtChars a.data b.data

/-- Go string `<=`, the order `sort.Strings` sorts into. -/
def strLe (a b : String) : Bool := !(strLt b a)

/-- Modelled from the spec: the ASCII lowercasing used by the Naming
Normalizer (the repository's `ident` package, which is not among the
provided source files). -/
def lowerChar (c : Char) : Char :=
  if c.isUpper then Char.ofNat (c.toNat + 32) else c

/-- Modelled from the spec: word segmentation of `ident.ParseMixedCaps`
(the repository's `ident` package is not among the provided source
files).  Per the spec, an identifier is segmented on transitions from
lowercase to uppercase, and a run of uppercase letters followed by a
lowercase continuation is split before its last uppercase letter
(`HTTPStatus` → `HTTP`, `Status`).  The first argument is the current
word accumulated in reverse. -/
def segMixedCaps : List Char → List Char → List (List Char)
  | cur, [] => [cur.reverse]
  | [], c :: rest => segMixedCaps [c] rest
  | p :: cs, c :: rest =>
    if p.isLower && c.isUpper then
      (p :: cs).reverse :: segMixedCaps [c] rest
    else if p.isUpper && c.isLower && cs ≠ [] then
      cs.reverse :: segMixedCaps [c, p] rest
    else
      segMixedCaps (c :: p :: cs) rest

/-- Modelled from the spec: `ident.ParseMixedCaps(s).ToLowerCamelCase()`.
The leading word is lowercased; the casing of the remaining words
(acronym runs included) is preserved, and the words are concatenated. -/
def lowerCamelCase (s : String) : String :=
  match segMixedCaps [] s.data with
  | [] => ""
  | w :: ws => String.mk (w.map lowerChar ++ ws.flatten)

/-- Function `writeArgumentType` writes a minified GraphQL type for `t`.
`value` indicates whether `t` is a value (required) type or pointer
(optional) type; if `value` is true, `!` is written at the end.
A pointer unwraps with `value = false` and returns before the trailing
`!` is considered; slices and arrays render `[elem!]`; every other kind
renders `t.Name()`, with the bare `string` name replaced by `ID`
(workaround kept from the source). -/
def writeArgumentType : TypeDesc → Bool → String
  | .ptr t, _ => writeArgumentType t false
  | .slice t, value => "[" ++ writeArgumentType t true ++ "]" ++ (if value then "!" else "")
  | .array t, value => "[" ++ writeArgumentType t true ++ "]" ++ (if value then "!" else "")
  | .named n, value =>
      (if n == "string" then "ID" else n) ++ (if value then "!" else "")
  | .record n _ _, value =>
      (if n == "string" then "ID" else n) ++ (if value then "!" else "")

/-- The key order used by `sort.Strings` in `queryArguments`, lifted to
map entries (the Go code sorts the key set of the map; since map keys
are unique, sorting the entries by key is the same operation). -/
def varLe (a b : String × TypeDesc) : Prop := strLe a.1 b.1 = true

instance : DecidableRel varLe := fun a b =>
  inferInstanceAs (Decidable (strLe a.1 b.1 = true))

/-- The strict key order underlying `varLe`. -/
def varLt (a b : String × TypeDesc) : Prop := strLt a.1 b.1 = true

/-- Is the type description a pointer kind? -/
def TypeDesc.isPtr : TypeDesc → Bool
  | .ptr _ => true
  | _ => false

/-- The variables map with its entries sorted by key, ascending
(`sort.Strings(keys)` in the source). -/
def sortedVariables (vs : List (String × TypeDesc)) : List (String × TypeDesc) :=
  vs.insertionSort varLe

/-- Function `queryArguments` constructs a minified arguments string for
variables, e.g. `$a:Int!$b:Boolean`.  Keys are sorted to produce
deterministic output; no comma is inserted between entries. -/
def queryArguments (vs : List (String × TypeDesc)) : String :=
  (sortedVariables vs).foldl
    (fun buf kv => buf ++ "$" ++ kv.1 ++ ":" ++ writeArgumentType kv.2 true) ""

mutual
/-- Function `writeQuery` writes a minified query for `t`.  If `inline` is true,
the struct fields of `t` are inlined into the parent struct.  Pointers
and slices unwrap with `inline = false`; a struct whose pointer type
implements `json.Unmarshaler` is a scalar and is not expanded; other
kinds (named types, arrays) fall through the `switch` and write
nothing. -/
def writeQuery : TypeDesc → Bool → String
  | .ptr t, _ => writeQuery t false
  | .slice t, _ => writeQuery t false
  | .record _ unm fields, inline =>
      if unm then ""
      else
        (if inline then "" else "\x7b") ++ writeFields fields true ++
          (if inline then "" else "\x7d")
  | _, _ => ""

/-- The field loop of `writeQuery`: a comma before every field but the
first; a field is inlined iff it is anonymous and has no `graphql`
tag; a non-inlined field writes its tag value if tagged, otherwise the
lower-camel-case of its identifier; then its type is compiled with
`inline` set to whether the field was inlined. -/
def writeFields : List StructField → Bool → String
  | [], _ => ""
  | (name, tag, anon, ty) :: rest, first =>
      (if first then "" else ",") ++
        (if anon && tag.isNone then ""
         else match tag with
           | some v => v
           | none => lowerCamelCase name) ++
        writeQuery ty (anon && tag.isNone) ++ writeFields rest false
end

/-- Function `query` constructs a minified query string for the data shape `v`,
e.g. `struct{Foo Int, BarBaz *Boolean}` → `{foo,barBaz}`. -/
def query (t : TypeDesc) : String := writeQuery t false

/-- The `Query` operation of the unnamed source file: operation name,
response data shape, variables map.  (The `RequestHandler` field and
the HTTP-level methods are transport, out of scope.) -/
structure Query where
  Name : String
  Data : TypeDesc
  Vars : List (String × TypeDesc)

/-- Method `(*Query).Query()` of the unnamed source file: write `query Name`
when the name is nonempty; when variables are present, write `query`
first if nothing has been written yet, then `(` arguments `)`; then the
compiled selection. -/
def Query.Query (op : Query) : String :=
  let s1 := if op.Name ≠ "" then "query " ++ op.Name else ""
  let s2 :=
    if op.Vars.length > 0 then
      (if s1.length = 0 then s1 ++ "query" else s1) ++
        "(" ++ queryArguments op.Vars ++ ")"
    else s1
  s2 ++ query op.Data

/-- The `Mutation` operation of the unnamed source file. -/
structure Mutation where
  Name : String
  Data : TypeDesc
  Vars : List (String × TypeDesc)

/-- Method `(*Mutation).Query()` of the unnamed source file: always write
`mutation`; then ` Name` when the name is nonempty; then `(` arguments
`)` when variables are present; then the compiled selection. -/
def Mutation.Query (op : Mutation) : String :=
  "mutation" ++
    (if op.Name ≠ "" then " " ++ op.Name else "") ++
    (if op.Vars.length > 0 then "(" ++ queryArguments op.Vars ++ ")" else "") ++
    query op.Data

/-- Function `constructQuery` of `query.go`. -/
def constructQuery (v : TypeDesc) (vs : List (String × TypeDesc)) : String :=
  if vs.length > 0 then "query(" ++ queryArguments vs ++ ")" ++ query v
  else query v

/-- Function `constructMutation` of `query.go`. -/
def constructMutation (v : TypeDesc) (vs : List (String × TypeDesc)) : String :=
  if vs.length > 0 then "mutation(" ++ queryArguments vs ++ ")" ++ query v
  else "mutation" ++ query v

mutual
/-- Structural size of a type description, the well-founded measure of
the recursion in `writeArgumentType` and `writeQuery`. -/
def sizeTD : TypeDesc → Nat
  | .named _ => 1
  | .ptr t => sizeTD t + 1
  | .slice t => sizeTD t + 1
  | .array t => sizeTD t + 1
  | .record _ _ fields => sizeFields fields + 1

/-- Structural size of a field list. -/
def sizeFields : List StructField → Nat
  | [] => 1
  | (_, _, _, ty) :: rest => sizeTD ty + sizeFields rest + 1
end

/-- Fuel-indexed variant of `writeArgumentType`: every recursive call
consumes one unit of fuel, and exhausted fuel yields `none`. -/
def writeArgumentTypeFuel : Nat → TypeDesc → Bool → Option String
  | 0, _, _ => none
  | n + 1, t, value =>
    match t with
    | .ptr t' => writeArgumentTypeFuel n t' false
    | .slice t' =>
        (writeArgumentTypeFuel n t' true).map
          (fun s => "[" ++ s ++ "]" ++ (if value then "!" else ""))
    | .array t' =>
        (writeArgumentTypeFuel n t' true).map
          (fun s => "[" ++ s ++ "]" ++ (if value then "!" else ""))
    | .named nm =>
        some ((if nm == "string" then "ID" else nm) ++ (if value then "!" else ""))
    | .record nm _ _ =>
        some ((if nm == "string" then "ID" else nm) ++ (if value then "!" else ""))

mutual
/-- Fuel-indexed variant of `writeQuery`. -/
def writeQueryFuel : Nat → TypeDesc → Bool → Option String
  | 0, _, _ => none
  | n + 1, t, inline =>
    match t with
    | .ptr t' => writeQueryFuel n t' false
    | .slice t' => writeQueryFuel n t' false
    | .record _ unm fields =>
        if unm then some ""
        else
          (writeFieldsFuel n fields true).map
            (fun body => (if inline then "" else "\x7b") ++ body ++
              (if inline then "" else "\x7d"))
    | _ => some ""

/-- Fuel-indexed variant of `writeFields`. -/
def writeFieldsFuel : Nat → List StructField → Bool → Option String
  | 0, _, _ => none
  | _ + 1, [], _ => some ""
  | n + 1, (name, tag, anon, ty) :: rest, first =>
      match writeQueryFuel n ty (anon && tag.isNone),
            writeFieldsFuel n rest false with
      | some s, some r =>
          some ((if first then "" else ",") ++
            (if anon && tag.isNone then ""
             else match tag with
               | some v => v
               | none => lowerCamelCase name) ++ s ++ r)
      | _, _ => none
end

theorem sizeTD_pos (t : TypeDesc) : 1 ≤ sizeTD t := by
  cases t <;> simp [sizeTD]

theorem sizeFields_pos (fs : List StructField) : 1 ≤ sizeFields fs := by
  cases fs with
  | nil => simp [sizeFields]
  | cons f rest => obtain ⟨_, _, _, _⟩ := f; simp [sizeFields]

theorem writeArgumentTypeFuel_adequate :
    ∀ (n : Nat) (t : TypeDesc) (value : Bool), sizeTD t ≤ n →
      writeArgumentTypeFuel n t value = some (writeArgumentType t value) := by
  intro n
  induction n with
  | zero =>
      intro t value h
      have := sizeTD_pos t
      omega
  | succ n ih =>
      intro t value h
      cases t with
      | named nm => simp [writeArgumentTypeFuel, writeArgumentType]
      | ptr t' =>
          have hs : sizeTD t' ≤ n := by simp [sizeTD] at h; omega
          simp [writeArgumentTypeFuel, writeArgumentType, ih t' false hs]
      | slice t' =>
          have hs : sizeTD t' ≤ n := by simp [sizeTD] at h; omega
          simp [writeArgumentTypeFuel, writeArgumentType, ih t' true hs]
      | array t' =>
          have hs : sizeTD t' ≤ n := by simp [sizeTD] at h; omega
          simp [writeArgumentTypeFuel, writeArgumentType, ih t' true hs]
      | record nm unm fields => simp [writeArgumentTypeFuel, writeArgumentType]

theorem writeQueryFuel_adequate :
    ∀ n : Nat,
      (∀ (t : TypeDesc) (inline : Bool), sizeTD t ≤ n →
        writeQueryFuel n t inline = some (writeQuery t inline)) ∧
      (∀ (fs : List StructField) (first : Bool), sizeFields fs ≤ n →
        writeFieldsFuel n fs first = some (writeFields fs first)) := by
  intro n
  induction n with
  | zero =>
      constructor
      · intro t _ h; have := sizeTD_pos t; omega
      · intro fs _ h; have := sizeFields_pos fs; omega
  | succ n ih =>
      constructor
      · intro t inline h
        cases t with
        | named nm => simp [writeQueryFuel, writeQuery]
        | ptr t' =>
            have hs : sizeTD t' ≤ n := by simp [sizeTD] at h; omega
            simp [writeQueryFuel, writeQuery, ih.1 t' false hs]
        | slice t' =>
            have hs : sizeTD t' ≤ n := by simp [sizeTD] at h; omega
            simp [writeQueryFuel, writeQuery, ih.1 t' false hs]
        | array t' => simp [writeQueryFuel, writeQuery]
        | record nm unm fields =>
            have hs : sizeFields fields ≤ n := by simp [sizeTD] at h; omega
            cases unm with
            | true => simp [writeQueryFuel, writeQuery]
            | false => simp [writeQueryFuel, writeQuery, ih.2 fields true hs]
      · intro fs first h
        cases fs with
        | nil => simp [writeFieldsFuel, writeFields]
        | cons f rest =>
            obtain ⟨name, tag, anon, ty⟩ := f
            have h1 : sizeTD ty ≤ n := by simp [sizeFields] at h; omega
            have h2 : sizeFields rest ≤ n := by simp [sizeFields] at h; omega
            simp [writeFieldsFuel, writeFields,
              ih.1 ty (anon && tag.isNone) h1, ih.2 rest false h2]

theorem strLtChars_irrefl : ∀ l : List Char, strLtChars l l = false := by
  intro l
  induction l with
  | nil => rfl
  | cons x xs ih => simp [strLtChars, ih]

theorem strLtChars_trans : ∀ a b c : List Char,
    strLtChars a b = true → strLtChars b c = true → strLtChars a c = true := by
  intro a
  induction a with
  | nil =>
      intro b c h1 h2
      cases b with
      | nil => simp [strLtChars] at h1
      | cons y ys =>
          cases c with
          | nil => simp [strLtChars] at h2
          | cons z zs => simp [strLtChars]
  | cons x xs ih =>
      intro b c h1 h2
      cases b with
      | nil => simp [strLtChars] at h1
      | cons y ys =>
          cases c with
          | nil => simp [strLtChars] at h2
          | cons z zs =>
              simp only [strLtChars, Bool.or_eq_true, Bool.and_eq_true,
                decide_eq_true_eq, beq_iff_eq] at h1 h2 ⊢
              rcases h1 with h1 | ⟨h1e, h1r⟩
              · rcases h2 with h2 | ⟨h2e, h2r⟩
                · exact Or.inl (Nat.lt_trans h1 h2)
                · exact Or.inl (h2e ▸ h1)
              · rcases h2 with h2 | ⟨h2e, h2r⟩
                · exact Or.inl (h1e ▸ h2)
                · exact Or.inr ⟨h1e.trans h2e, ih ys zs h1r h2r⟩

theorem strLtChars_eq_of_not : ∀ a b : List Char,
    strLtChars a b = false → strLtChars b a = false → a = b := by
  intro a
  induction a with
  | nil =>
      intro b h1 _
      cases b with
      | nil => rfl
      | cons y ys => simp [strLtChars] at h1
  | cons x xs ih =>
      intro b h1 h2
      cases b with
      | nil => simp [strLtChars] at h2
      | cons y ys =>
          simp only [strLtChars, Bool.or_eq_false_iff, Bool.and_eq_false_iff,
            decide_eq_false_iff_not, beq_eq_false_iff_ne, ne_eq] at h1 h2
          have hxy : x.toNat = y.toNat := by omega
          have hx : x = y := Char.ext (UInt32.ext hxy)
          subst hx
          rcases h1.2 with h | h
          · exact absurd rfl h
          · rcases h2.2 with h' | h'
            · exact absurd rfl h'
            · exact congrArg (x :: ·) (ih ys h h')

theorem strLt_irrefl (s : String) : strLt s s = false := strLtChars_irrefl s.data

theorem strLt_trans {a b c : String} (h1 : strLt a b = true) (h2 : strLt b c = true) :
    strLt a c = true := strLtChars_trans a.data b.data c.data h1 h2

theorem strLt_eq_of_not {a b : String} (h1 : strLt a b = false) (h2 : strLt b a = false) :
    a = b := String.ext (strLtChars_eq_of_not a.data b.data h1 h2)

theorem strLe_total (a b : String) : strLe a b = true ∨ strLe b a = true := by
  cases hba : strLt b a with
  | false => exact Or.inl (by simp [strLe, hba])
  | true =>
      cases hab : strLt a b with
      | false => exact Or.inr (by simp [strLe, hab])
      | true =>
          have h := strLt_trans hab hba
          rw [strLt_irrefl] at h
          exact absurd h (by simp)

theorem strLe_trans {a b c : String} (h1 : strLe a b = true) (h2 : strLe b c = true) :
    strLe a c = true := by
  simp only [strLe, Bool.not_eq_true'] at h1 h2 ⊢
  cases hca : strLt c a with
  | false => rfl
  | true =>
      cases hab : strLt a b with
      | false =>
          have hba : a = b := strLt_eq_of_not hab h1
          rw [hba] at hca
          rw [hca] at h2
          exact h2
      | true =>
          have h := strLt_trans hca hab
          rw [h] at h2
          exact h2

theorem strLt_of_le_of_ne {a b : String} (h : strLe a b = true) (hne : a ≠ b) :
    strLt a b = true := by
  simp only [strLe, Bool.not_eq_true'] at h
  cases hab : strLt a b with
  | true => rfl
  | false => exact absurd (strLt_eq_of_not hab h) hne

theorem sorted_strict_of_nodup_keys {l : List (String × TypeDesc)}
    (hs : List.Sorted varLe l) (hn : (l.map Prod.fst).Nodup) :
    List.Sorted varLt l := by
  have hne : List.Pairwise (fun a b : String × TypeDesc => a.1 ≠ b.1) l :=
    (List.pairwise_map).mp hn
  exact (hs.and hne).imp (fun h => strLt_of_le_of_ne h.1 h.2)

/-- C1: a Query operation with empty name, variables `a : Int` and
`b : *Boolean`, and data shape `struct{Foo Int; BarBaz *Boolean}`
compiles to exactly `query($a:Int!$b:Boolean){foo,barBaz}`. -/
theorem c1_end_to_end_example :
    (Query.mk ""
      (.record "" false
        [("Foo", none, false, .named "Int"),
         ("BarBaz", none, false, .ptr (.named "Boolean"))])
      [("a", .named "Int"), ("b", .ptr (.named "Boolean"))]).Query
    = "query($a:Int!$b:Boolean)\x7bfoo,barBaz\x7d" := by
  simp only [Query.Query, query, writeQuery, writeFields, lowerCamelCase, segMixedCaps,
    lowerChar]
  rfl

/-- C2: the rendered argument-declaration list enumerates variables in
lexicographically ascending key order, and two variables maps holding
identical (name, type) bindings (keys unique, enumerated in any order)
render byte-identical declaration strings. -/
theorem c2_sorted_and_order_independent :
    ∀ v1 v2 : List (String × TypeDesc),
      (v1.map Prod.fst).Nodup → v1.Perm v2 →
      List.Sorted varLe (sortedVariables v1) ∧
      queryArguments v1 = queryArguments v2 := by
  intro v1 v2 hnd hperm
  haveI : IsTotal (String × TypeDesc) varLe := ⟨fun a b => strLe_total a.1 b.1⟩
  haveI : IsTrans (String × TypeDesc) varLe := ⟨fun _ _ _ => strLe_trans⟩
  haveI : IsAntisymm (String × TypeDesc) varLt :=
    ⟨fun a b h1 h2 => by
      have h := strLt_trans h1 h2
      rw [strLt_irrefl] at h
      exact absurd h (by simp)⟩
  have hs1 := List.sorted_insertionSort varLe v1
  have hs2 := List.sorted_insertionSort varLe v2
  refine ⟨hs1, ?_⟩
  have hp1 : (sortedVariables v1).Perm v1 := List.perm_insertionSort varLe v1
  have hp2 : (sortedVariables v2).Perm v2 := List.perm_insertionSort varLe v2
  have hperm12 : (sortedVariables v1).Perm (sortedVariables v2) :=
    (hp1.trans hperm).trans hp2.symm
  have hnd1 : ((sortedVariables v1).map Prod.fst).Nodup :=
    hnd.perm (hp1.map Prod.fst).symm
  have hndv2 : (v2.map Prod.fst).Nodup := hnd.perm (hperm.map Prod.fst)
  have hnd2 : ((sortedVariables v2).map Prod.fst).Nodup :=
    hndv2.perm (hp2.map Prod.fst).symm
  have heq : sortedVariables v1 = sortedVariables v2 :=
    List.eq_of_perm_of_sorted hperm12
      (sorted_strict_of_nodup_keys hs1 hnd1)
      (sorted_strict_of_nodup_keys hs2 hnd2)
  simp [queryArguments, heq]

/-- Witness for C2: a concrete two-entry map given in both enumeration
orders renders the same sorted declaration string. -/
theorem c2_witness :
    ([("b", TypeDesc.ptr (.named "Boolean")), ("a", TypeDesc.named "Int")].map
        Prod.fst).Nodup ∧
    List.Sorted varLe (sortedVariables
      [("b", TypeDesc.ptr (.named "Boolean")), ("a", TypeDesc.named "Int")]) ∧
    queryArguments [("b", TypeDesc.ptr (.named "Boolean")), ("a", TypeDesc.named "Int")] =
      queryArguments [("a", TypeDesc.named "Int"), ("b", TypeDesc.ptr (.named "Boolean"))] := by
  have h := c2_sorted_and_order_independent
    [("b", TypeDesc.ptr (.named "Boolean")), ("a", TypeDesc.named "Int")]
    [("a", TypeDesc.named "Int"), ("b", TypeDesc.ptr (.named "Boolean"))]
    (by decide) (List.Perm.swap _ _ _)
  exact ⟨by decide, h.1, h.2⟩

/-- C3: the argument type token for a pointer type with required = true
equals the token of the wrapped type with required = false (one level
unwrapped, no trailing `!`), and a non-pointer type resolved with
required = true is the optional token followed by a trailing `!`. -/
theorem c3_pointer_drops_required :
    (∀ t : TypeDesc, writeArgumentType (.ptr t) true = writeArgumentType t false) ∧
    (∀ t : TypeDesc, t.isPtr = false →
      writeArgumentType t true = writeArgumentType t false ++ "!") := by
  constructor
  · intro t; rfl
  · intro t h
    cases t with
    | ptr t' => simp [TypeDesc.isPtr] at h
    | named n => simp [writeArgumentType, String.append_empty]
    | slice t' => simp [writeArgumentType, String.append_empty]
    | array t' => simp [writeArgumentType, String.append_empty]
    | record n unm fields => simp [writeArgumentType, String.append_empty]

/-- Witness for C3 at the Boolean scalar type. -/
theorem c3_witness :
    writeArgumentType (.ptr (.named "Boolean")) true
      = writeArgumentType (.named "Boolean") false ∧
    (TypeDesc.named "Boolean").isPtr = false ∧
    writeArgumentType (.named "Boolean") true
      = writeArgumentType (.named "Boolean") false ++ "!" :=
  ⟨c3_pointer_drops_required.1 _, rfl, c3_pointer_drops_required.2 _ rfl⟩

/-- C4: a variable whose value has the bare host `string` type renders
its argument type token as `ID!`, never as `String!`. -/
theorem c4_string_maps_to_ID :
    writeArgumentType (.named "string") true = "ID!" ∧
    writeArgumentType (.named "string") true ≠ "String!" := by
  exact ⟨rfl, by decide⟩

/-- C5: a record type is expanded into a braced sub-selection iff it
does not declare the custom-scalar (json.Unmarshaler) capability — a
scalar record contributes the empty string whatever its fields, while
a non-scalar record always renders a braced body. -/
theorem c5_custom_scalar_leaf :
    (∀ (n : String) (fields : List StructField) (inline : Bool),
      writeQuery (.record n true fields) inline = "") ∧
    (∀ (n : String) (fields : List StructField),
      ∃ body, writeQuery (.record n false fields) false = "\x7b" ++ body ++ "\x7d") := by
  constructor
  · intro n fields inline
    simp [writeQuery]
  · intro n fields
    exact ⟨writeFields fields true, by simp [writeQuery]⟩

/-- C6: a record field is inlined (no name token, children spliced into
the parent braces) iff it is anonymous and carries no `graphql` tag;
in particular the embedded untagged sub-record `{A, B}` plus normal
field `C` compile to `{a,b,c}`, and a tag on an anonymous field
disables its inlining. -/
theorem c6_embedding_inlining :
    (∀ (name : String) (tag : Option String) (anon : Bool) (ty : TypeDesc)
        (rest : List StructField) (first : Bool),
      writeFields ((name, tag, anon, ty) :: rest) first =
        (if first then "" else ",") ++
          (if anon && tag.isNone then writeQuery ty true
           else tag.getD (lowerCamelCase name) ++ writeQuery ty false) ++
          writeFields rest false) ∧
    writeQuery (.record "" false
      [("Sub", none, true, .record "S" false
          [("A", none, false, .named "Int"), ("B", none, false, .named "Int")]),
       ("C", none, false, .named "Int")]) false = "\x7ba,b,c\x7d" ∧
    writeQuery (.record "" false
      [("Sub", some "sub", true, .record "S" false
          [("A", none, false, .named "Int"), ("B", none, false, .named "Int")])]) false
      = "\x7bsub\x7ba,b\x7d\x7d" := by
  refine ⟨?_, ?_, ?_⟩
  · intro name tag anon ty rest first
    cases anon <;> cases tag <;>
      simp [writeFields, String.append_assoc, String.append_empty]
  · simp only [writeQuery, writeFields, lowerCamelCase, segMixedCaps, lowerChar]
    rfl
  · simp only [writeQuery, writeFields, lowerCamelCase, segMixedCaps, lowerChar]
    rfl

/-- C7 counterexample: a Query with empty name and empty variables map
renders the bare selection with no `query` keyword at all, so the
claimed form `query[ Name](args){selection}` fails there. -/
theorem c7_counterexample :
    (Query.mk "" (.record "" false [("Foo", none, false, .named "Int")]) []).Query
      = "\x7bfoo\x7d" ∧
    (Query.mk "" (.record "" false [("Foo", none, false, .named "Int")]) []).Query
      ≠ "query" ++ query (.record "" false [("Foo", none, false, .named "Int")]) := by
  constructor
  · simp only [Query.Query, query, writeQuery, writeFields, lowerCamelCase, segMixedCaps,
      lowerChar]
    rfl
  · simp only [Query.Query, query, writeQuery, writeFields, lowerCamelCase, segMixedCaps,
      lowerChar]
    decide

/-- C7 amended: a Query renders `query[ Name](args){selection}` with
name and argument group omitted when absent, provided the name or the
variables map is nonempty; when both are empty, the `query` keyword is
omitted as well and the document is the bare selection.  A Mutation
always renders `mutation[ Name](args){selection}`, the keyword present
even with no name and no variables. -/
theorem c7_amended_forms :
    (∀ (name : String) (data : TypeDesc) (vs : List (String × TypeDesc)),
      name ≠ "" ∨ vs ≠ [] →
      (Query.mk name data vs).Query =
        "query" ++ (if name = "" then "" else " " ++ name) ++
          (if vs.length = 0 then "" else "(" ++ queryArguments vs ++ ")") ++
          query data) ∧
    (∀ data : TypeDesc, (Query.mk "" data []).Query = query data) ∧
    (∀ (name : String) (data : TypeDesc) (vs : List (String × TypeDesc)),
      (Mutation.mk name data vs).Query =
        "mutation" ++ (if name = "" then "" else " " ++ name) ++
          (if vs.length = 0 then "" else "(" ++ queryArguments vs ++ ")") ++
          query data) := by
  refine ⟨?_, ?_, ?_⟩
  · intro name data vs h
    by_cases hn : name = ""
    · subst hn
      rcases h with h | h
      · exact absurd rfl h
      · have hlen : vs.length > 0 := List.length_pos.mpr h
        simp [Query.Query, hlen, Nat.pos_iff_ne_zero.mp hlen, String.append_assoc]
        rfl
    · by_cases hv : vs.length = 0
      · simp [Query.Query, hn, hv, String.append_assoc]
        rfl
      · simp [Query.Query, hn, hv, Nat.pos_of_ne_zero hv, String.append_assoc,
          show ("query " : String).length = 6 from rfl]
        rfl
  · intro data
    simp [Query.Query]
  · intro name data vs
    by_cases hn : name = "" <;> by_cases hv : vs.length = 0
    · simp [Mutation.Query, hn, hv]
    · simp [Mutation.Query, hn, hv, Nat.pos_of_ne_zero hv]
    · simp [Mutation.Query, hn, hv]
    · simp [Mutation.Query, hn, hv, Nat.pos_of_ne_zero hv]

/-- Witness for C7 amended at a named query with no variables. -/
theorem c7_amended_witness :
    (Query.mk "Q" (.record "" false [("Foo", none, false, .named "Int")]) []).Query
      = "query Q\x7bfoo\x7d" := by
  have h := c7_amended_forms.1 "Q"
    (.record "" false [("Foo", none, false, .named "Int")]) [] (Or.inl (by decide))
  rw [h]
  simp only [query, writeQuery, writeFields, lowerCamelCase, segMixedCaps, lowerChar]
  rfl

/-- C8 counterexample: an array type does not unwrap and recurse in the
selection compiler — it contributes nothing — so its selection output
differs from its element's. -/
theorem c8_counterexample :
    writeQuery (.array (.record "" false [("Foo", none, false, .named "Int")])) false
      = "" ∧
    writeQuery (.record "" false [("Foo", none, false, .named "Int")]) false
      = "\x7bfoo\x7d" ∧
    writeQuery (.array (.record "" false [("Foo", none, false, .named "Int")])) false
      ≠ writeQuery (.record "" false [("Foo", none, false, .named "Int")]) false := by
  refine ⟨?_, ?_, ?_⟩
  · simp [writeQuery]
  · simp only [writeQuery, writeFields, lowerCamelCase, segMixedCaps, lowerChar]
    rfl
  · simp only [writeQuery, writeFields, lowerCamelCase, segMixedCaps, lowerChar]
    decide

/-- C8 amended: pointer and slice types unwrap exactly one level and
recurse with inline = false, contributing nothing themselves; an array
type (like any other non-pointer, non-slice, non-record kind) falls
through the switch and contributes nothing at all, without recursing
into its element. -/
theorem c8_amended_unwrap :
    (∀ (t : TypeDesc) (b : Bool), writeQuery (.ptr t) b = writeQuery t false) ∧
    (∀ (t : TypeDesc) (b : Bool), writeQuery (.slice t) b = writeQuery t false) ∧
    (∀ (t : TypeDesc) (b : Bool), writeQuery (.array t) b = "") := by
  refine ⟨?_, ?_, ?_⟩
  · intro t b; simp [writeQuery]
  · intro t b; simp [writeQuery]
  · intro t b; simp [writeQuery]

/-- C9: both the type-name resolver and the selection compiler are
total on every finite type description: with any fuel at least the
structural size of the type, the fuel-indexed variants (one unit per
recursive call) return `some` of the total functions' values. -/
theorem c9_resolution_terminates :
    ∀ (t : TypeDesc) (b : Bool) (n : Nat), sizeTD t ≤ n →
      writeArgumentTypeFuel n t b = some (writeArgumentType t b) ∧
      writeQueryFuel n t b = some (writeQuery t b) :=
  fun t b n h =>
    ⟨writeArgumentTypeFuel_adequate n t b h, (writeQueryFuel_adequate n).1 t b h⟩

/-- Witness for C9 at a multiply-nested pointer/slice type. -/
theorem c9_witness :
    sizeTD (.ptr (.slice (.ptr (.ptr (.named "Int"))))) ≤ 5 ∧
    writeArgumentTypeFuel 5 (.ptr (.slice (.ptr (.ptr (.named "Int"))))) true =
      some (writeArgumentType (.ptr (.slice (.ptr (.ptr (.named "Int"))))) true) ∧
    writeQueryFuel 5 (.ptr (.slice (.ptr (.ptr (.named "Int"))))) true =
      some (writeQuery (.ptr (.slice (.ptr (.ptr (.named "Int"))))) true) := by
  have hsize : sizeTD (.ptr (.slice (.ptr (.ptr (.named "Int"))))) ≤ 5 := by
    simp [sizeTD]
  have h := c9_resolution_terminates (.ptr (.slice (.ptr (.ptr (.named "Int"))))) true 5
    hsize
  exact ⟨hsize, h.1, h.2⟩

/-- C10: the two compiler variants agree when no operation name is
used: `constructQuery` and `constructMutation` of `query.go` render
the same strings as the unnamed variant's Query and Mutation
operations with empty name. -/
theorem c10_variants_agree :
    ∀ (data : TypeDesc) (vs : List (String × TypeDesc)),
      constructQuery data vs = (Query.mk "" data vs).Query ∧
      constructMutation data vs = (Mutation.mk "" data vs).Query := by
  intro data vs
  constructor
  · by_cases h : vs.length > 0 <;>
      simp [constructQuery, Query.Query, h, String.append_assoc]
  · by_cases h : vs.length > 0
    · simp [constructMutation, Mutation.Query, h]
      rfl
    · simp [constructMutation, Mutation.Query, h]
